import Mathlib

/-!
Shallow embedding of the CI-Dashboard KPI pipeline:

* src/source/kpimappers/BuildTimeFromQueueSegmentKpiMapper.ts
  (getQueryStrings, mapToKpiStateOrNull)
* the abstract KpiMapper base class
  (GetDateRange, GetKpiStateOrNull, GetStartDate, GetEndDate)

Dates are modelled as integer day numbers in UTC (moment.utc normalizes to a
calendar date; subtract(2, "day") is subtraction of 2; diff(-, "days") is
integer difference).  Numeric measurement values are carried opaquely as
integers: the mapper performs no arithmetic on them.  Nullable fields are
Option.  The in-place mutation of row records and of the locally grown
trace-line table is modelled by explicit state passing: functions return the
post-call value of every record the JavaScript code mutates.

The trace-line table in mapToKpiStateOrNull is a JavaScript Array used as a
string-keyed map.  Own-property lookup and creation are modelled by an
association list in property-creation order; the final for..in enumeration
follows the ECMAScript own-property key order: keys that are canonical array
indices (the decimal numeral of an integer below 2^32 - 1, with no leading
zero) come first in ascending numeric order, then the remaining string keys
in creation order.  The model covers own data properties created by the
algorithm itself; clashes with properties inherited from Array.prototype are
outside its scope.
-/

namespace KpiMappers

/-- Row record returned by the data store for this mapper: a DATE, a nullable
numeric AVG_BUILD_TIME, and, for the grouped request, the group column value
(none models an absent property, as on rows of the overall request). -/
structure RawRow where
  DATE : Int
  AVG_BUILD_TIME : Option Int
  group : Option String
deriving DecidableEq

/-- Modelled from the spec: TraceLine, the chart series record built by the
Plotly helper module, which is not among the repository files present.  The
spec gives it a name, parallel x and y value sequences, and a line width. -/
structure TraceLine where
  name : String
  x : List Int
  y : List (Option Int)
  width : Int
deriving DecidableEq

/-- Modelled from the spec: Plotly.GetTraceLineData(title, x, y, width)
constructs a TraceLine from its four arguments (the Plotly helper module is
not among the repository files present). -/
def GetTraceLineData (title : String) (x : List Int) (y : List (Option Int))
    (width : Int) : TraceLine :=
  ⟨title, x, y, width⟩

/-- Chart layout metadata assembled at the end of mapToKpiStateOrNull.  The
Plotly helper calls (GetDateXAxis, GetYAxis, GetShapesFromGoals) only package
their arguments; the model keeps the arguments themselves. -/
structure Layout where
  title : String
  showlegend : Bool
  xaxisFrom : Int
  xaxisTo : Int
  yaxis : String
  targetGoal : Int
  stretchGoal : Int
deriving DecidableEq

/-- The IKpiState payload consumed by Plotly.js: the series list and layout
(frames and the displayModeBar flag are constants in the source). -/
structure KpiState where
  data : List TraceLine
  layout : Layout
deriving DecidableEq

/-- The per-KPI configuration of a concrete BuildTimeFromQueueSegmentKpiMapper
subclass: its title, the goal thresholds read from config, and the abstract
fields groupByColumn, filterColumn, filterValue. -/
structure MapperConfig where
  title : String
  targetGoal : Int
  stretchGoal : Int
  filterColumn : String
  filterValue : String
  groupByColumn : String
deriving DecidableEq

/-- Fixed private field of the mapper class. -/
def yAxisTitle : String := "Minutes (lower is better)"

/-- Group-name resolution applied to each row: an absent or empty group
property is replaced by the sentinel name Overall (the JavaScript falsy test
on the property value), otherwise the literal value is used. -/
def resolvedName (r : RawRow) : String :=
  match r.group with
  | none => "Overall"
  | some s => if s = "" then "Overall" else s

/-- Post-call value of a row record: the source normalizes the group property
in place before use, so every processed row ends with its group property set
to the resolved name. -/
def normalizeRow (r : RawRow) : RawRow :=
  { r with group := some (resolvedName r) }

/-- Line width chosen at trace-line creation: 3 for the Overall line, 1 for
any other group. -/
def widthOf (n : String) : Int :=
  if n = "Overall" then 3 else 1

/-- Own-property lookup in the trace-line table (first entry with the key). -/
def tlFind (n : String) : List (String × TraceLine) → Option TraceLine
  | [] => none
  | p :: rest => if p.1 = n then some p.2 else tlFind n rest

/-- The two x.push / y.push calls on the trace line stored under key n. -/
def pushPoint (n : String) (d : Int) (v : Option Int) :
    List (String × TraceLine) → List (String × TraceLine)
  | [] => []
  | p :: rest =>
    if p.1 = n then
      (p.1, { p.2 with x := p.2.x ++ [d], y := p.2.y ++ [v] }) :: rest
    else
      p :: pushPoint n d v rest

/-- Body of the inner for..of loop of mapToKpiStateOrNull for one row:
normalize the group property in place, create the trace line on first
sighting, push the x and y values.  Returns the updated table and the
post-call row record. -/
def processRow (tls : List (String × TraceLine)) (r : RawRow) :
    List (String × TraceLine) × RawRow :=
  let n := resolvedName r
  let tls1 :=
    if tlFind n tls = none then
      tls ++ [(n, GetTraceLineData n [] [] (widthOf n))]
    else
      tls
  (pushPoint n r.DATE r.AVG_BUILD_TIME tls1, normalizeRow r)

/-- The inner for..of loop over one row sequence. -/
def processRows (tls : List (String × TraceLine)) :
    List RawRow → List (String × TraceLine) × List RawRow
  | [] => (tls, [])
  | r :: rs =>
    let p := processRow tls r
    let q := processRows p.1 rs
    (q.1, p.2 :: q.2)

/-- The outer for..in loop over the row sequences: a sequence with fewer than
2 rows is skipped whole (continue), any other sequence is processed row by
row. -/
def processAll (tls : List (String × TraceLine)) :
    List (List RawRow) → List (String × TraceLine) × List (List RawRow)
  | [] => (tls, [])
  | s :: ss =>
    let p := if s.length < 2 then (tls, s) else processRows tls s
    let q := processAll p.1 ss
    (q.1, p.2 :: q.2)

/-- Numeric value of a decimal digit sequence. -/
def digitsToNat (l : List Char) : Nat :=
  l.foldl (fun a c => 10 * a + (c.toNat - 48)) 0

/-- Whether every character is a decimal digit. -/
def allDigits (l : List Char) : Bool :=
  l.all fun c => decide (48 ≤ c.toNat ∧ c.toNat ≤ 57)

/-- Canonical array-index test on a property key: the decimal numeral of an
integer below 2^32 - 1, with no leading zero (ECMAScript array index). -/
def canonIndex (s : String) : Option Nat :=
  match s.data with
  | [] => none
  | c :: cs =>
    if allDigits (c :: cs) ∧ (c = '0' → cs = []) ∧ digitsToNat (c :: cs) < 4294967295 then
      some (digitsToNat (c :: cs))
    else none

/-- Whether a property key is a canonical array index. -/
def isIndexKey (s : String) : Bool :=
  (canonIndex s).isSome

/-- Numeric value of an index key (0 for non-index keys; only applied to
index keys). -/
def idxVal (s : String) : Nat :=
  (canonIndex s).getD 0

/-- Insertion step of the ascending sort of index-keyed entries. -/
def insertIndexed (p : String × TraceLine) :
    List (String × TraceLine) → List (String × TraceLine)
  | [] => [p]
  | q :: rest =>
    if idxVal p.1 ≤ idxVal q.1 then p :: q :: rest else q :: insertIndexed p rest

/-- Ascending sort of index-keyed entries by numeric key value. -/
def sortIndexed : List (String × TraceLine) → List (String × TraceLine)
  | [] => []
  | p :: rest => insertIndexed p (sortIndexed rest)

/-- ECMAScript for..in own-property enumeration order over the trace-line
table (a JavaScript Array): canonical array-index keys first in ascending
numeric order, then the remaining keys in property-creation order. -/
def forInOrder (tls : List (String × TraceLine)) : List (String × TraceLine) :=
  sortIndexed (tls.filter fun p => isIndexKey p.1) ++
    (tls.filter fun p => !isIndexKey p.1)

/-- mapToKpiStateOrNull of BuildTimeFromQueueSegmentKpiMapper.  First
component: the returned IKpiState or null.  Second component: the post-call
value of the caller-visible row sequences (the source normalizes group
properties of processed rows in place).  The source indexes jsonArrays[0] and
jsonArrays[1] directly; the model reads a missing sequence as empty, while
the source would fail on fewer than two sequences, a case its only caller
never produces. -/
def mapToKpiStateOrNull (cfg : MapperConfig) (chartFromDate chartToDate : Int)
    (jsonArrays : List (List RawRow)) : Option KpiState × List (List RawRow) :=
  if (jsonArrays.getD 0 []).length < 2 ∨ (jsonArrays.getD 1 []).length < 6 then
    (none, jsonArrays)
  else
    let p := processAll [] jsonArrays
    let data := (forInOrder p.1).map Prod.snd
    (some
      { data := data
        layout :=
          { title := cfg.title
            showlegend := true
            xaxisFrom := chartFromDate
            xaxisTo := chartToDate
            yaxis := yAxisTitle
            targetGoal := cfg.targetGoal
            stretchGoal := cfg.stretchGoal } },
      p.2)

/-- Descriptor of one SQL query string built by getQueryStrings: the
parameters spliced into the query text.  minPrevDayData appears only in the
grouped query (its CASE WHEN coverage threshold), groupBy only in the grouped
query. -/
structure QueryDescriptor where
  fromDate : Int
  toDate : Int
  nPrevDays : Int
  minPrevDayData : Option Int
  hasFilter : Bool
  groupBy : Option String
deriving DecidableEq

/-- getQueryStrings of BuildTimeFromQueueSegmentKpiMapper.  The period rule
SimpleMovingAveragePeriod.GetPeriod is a collaborator whose module is not
among the repository files present; it is passed as the function gp.  The
derived constants follow the source: minPrevDayData is
Math.floor(movingAveragePeriod / 2) and nPrevDays is movingAveragePeriod - 1;
the filter condition is empty when filterColumn or filterValue is empty. -/
def getQueryStrings (gp : Int → Int) (cfg : MapperConfig)
    (fromD toD : Int) (dateRange : Int) : List QueryDescriptor :=
  let movingAveragePeriod : Int := gp dateRange
  let minPrevDayData : Int := Int.fdiv movingAveragePeriod 2
  let nPrevDays : Int := movingAveragePeriod - 1
  let hasFilter : Bool := !(cfg.filterColumn = "" ∨ cfg.filterValue = "")
  [ { fromDate := fromD, toDate := toD, nPrevDays := nPrevDays
      minPrevDayData := none, hasFilter := hasFilter, groupBy := none },
    { fromDate := fromD, toDate := toD, nPrevDays := nPrevDays
      minPrevDayData := some minPrevDayData, hasFilter := hasFilter
      groupBy := some cfg.groupByColumn } ]

/-- KpiMapper.GetDateRange: day difference of the two dates plus 1, inclusive
of the to date. -/
def GetDateRange (fromD toD : Int) : Int :=
  (toD - fromD) + 1

/-- KpiMapper.GetKpiStateOrNull.  The chart bounds are formatted from the
moment objects before fromDate.subtract(2, "day") mutates the from moment, so
the axis bounds keep the unshifted dates while the query strings receive the
shifted from date; the dateRange argument is computed from the original from
and to arguments.  The data store is the function queryFn; each query is
issued in order and the results handed to mapToKpiStateOrNull. -/
def GetKpiStateOrNull (gp : Int → Int) (cfg : MapperConfig)
    (queryFn : QueryDescriptor → List RawRow) (fromD toD : Int) :
    Option KpiState × List (List RawRow) :=
  let chartFromDate := fromD
  let chartToDate := toD
  let fromShifted := fromD - 2
  let sqls := getQueryStrings gp cfg fromShifted toD (GetDateRange fromD toD)
  let jsonArrayResults := sqls.map queryFn
  mapToKpiStateOrNull cfg chartFromDate chartToDate jsonArrayResults

/-- Row of a start-date or end-date discovery query: one nullable DATE
column. -/
structure DateRow where
  DATE : Option Int
deriving DecidableEq

/-- KpiMapper.GetStartDate, as a function of the rows the data store returned
for the start-date query.  First component: the returned Date or the thrown
Error message.  Second component: how many times the external logging
collaborator Log was called (console output is not the logging
collaborator). -/
def GetStartDate (title : String) (results : List DateRow) :
    Except String Int × Nat :=
  if results.length ≠ 1 then
    (Except.error ("kpi " ++ title ++ ": start date query must return only 1 result."), 1)
  else
    match (results.getD 0 ⟨none⟩).DATE with
    | none =>
      (Except.error ("kpi " ++ title ++ ": start date query must return a \"DATE\" column."), 1)
    | some d => (Except.ok d, 0)

/-- KpiMapper.GetEndDate, as a function of the rows the data store returned
for the end-date query; identical to GetStartDate up to the message text. -/
def GetEndDate (title : String) (results : List DateRow) :
    Except String Int × Nat :=
  if results.length ≠ 1 then
    (Except.error ("kpi " ++ title ++ ": end date query must return only 1 result."), 1)
  else
    match (results.getD 0 ⟨none⟩).DATE with
    | none =>
      (Except.error ("kpi " ++ title ++ ": end date query must return a \"DATE\" column."), 1)
    | some d => (Except.ok d, 0)

/-- Specification-side characterization: the distinct resolved group names in
first-sighting order over a row list, given the names already seen. -/
def firstSightings (seen : List String) : List RawRow → List String
  | [] => []
  | r :: rs =>
    let n := resolvedName r
    if n ∈ seen then firstSightings seen rs
    else n :: firstSightings (n :: seen) rs

/-- Specification-side characterization: the rows the assembly loop actually
processes, namely the sequences of length at least 2, concatenated in order. -/
def keptRows (seqs : List (List RawRow)) : List RawRow :=
  (seqs.filter fun s => decide (2 ≤ s.length)).foldr (· ++ ·) []

/-- Specification-side characterization: the dates of the rows routed to the
trace line of a given group name, in encounter order. -/
def routedDates (n : String) (rows : List RawRow) : List Int :=
  (rows.filter fun r => decide (resolvedName r = n)).map RawRow.DATE

/-- Specification-side characterization: the average values of the rows
routed to the trace line of a given group name, in encounter order; a null
average is carried as none. -/
def routedAvgs (n : String) (rows : List RawRow) : List (Option Int) :=
  (rows.filter fun r => decide (resolvedName r = n)).map RawRow.AVG_BUILD_TIME

/-- Keys of the trace-line table in property-creation order. -/
def keysOf (tls : List (String × TraceLine)) : List String :=
  tls.map Prod.fst

/-- Concrete mapper configuration used in concrete evaluations. -/
def cfgEx : MapperConfig :=
  ⟨"Build Time From Queue", 30, 20, "", "", "PLATFORM_CODE"⟩

/-- Concrete input whose grouped rows use the group names A and 5 (the second
a canonical array-index string), with A sighted before 5. -/
def jaNum : List (List RawRow) :=
  [ [⟨10, some 5, none⟩, ⟨11, some 7, none⟩],
    [⟨10, some 1, some "A"⟩, ⟨11, some 2, some "A"⟩, ⟨12, some 3, some "A"⟩,
     ⟨10, some 4, some "5"⟩, ⟨11, none, some "5"⟩, ⟨12, some 6, some "5"⟩] ]

/-- Concrete input whose grouped rows use the group names B and A in
non-alphabetical sighting order, one null average value, and one empty-string
group value that folds into the Overall line. -/
def jaAlpha : List (List RawRow) :=
  [ [⟨10, some 5, none⟩, ⟨11, some 7, none⟩],
    [⟨10, some 1, some "B"⟩, ⟨11, some 2, some "B"⟩, ⟨12, none, some "B"⟩,
     ⟨10, some 4, some "A"⟩, ⟨11, some 5, some "A"⟩, ⟨12, some 6, some ""⟩] ]

/-- Concrete input: jaAlpha with a third, too-short row sequence at the end. -/
def jaShort : List (List RawRow) :=
  jaAlpha ++ [[⟨99, none, some "Z"⟩]]

/-- Placeholder trace line for total projections out of an Option. -/
def defaultTrace : TraceLine :=
  ⟨"", [], [], 0⟩

/-- Placeholder payload for total projections out of an Option. -/
def defaultKpi : KpiState :=
  ⟨[], ⟨"", true, 0, 0, "", 0, 0⟩⟩

/-- The payload the mapper assembles for jaAlpha. -/
def pAlpha : KpiState :=
  ((mapToKpiStateOrNull cfgEx 0 1 jaAlpha).1).getD defaultKpi

theorem tlFind_append (n : String) (a b : List (String × TraceLine)) :
    tlFind n (a ++ b) =
      match tlFind n a with
      | some t => some t
      | none => tlFind n b := by
  induction a with
  | nil => simp [tlFind]
  | cons p rest ih =>
    by_cases h : p.1 = n
    · simp [tlFind, h]
    · simp [tlFind, h, ih]

theorem tlFind_eq_none_iff (n : String) (tls : List (String × TraceLine)) :
    tlFind n tls = none ↔ n ∉ keysOf tls := by
  induction tls with
  | nil => simp [tlFind, keysOf]
  | cons p rest ih =>
    by_cases h : p.1 = n
    · simp [tlFind, h, keysOf]
    · simp [tlFind, h, keysOf, Ne.symm h] at ih ⊢
      exact ih

theorem keysOf_append (a b : List (String × TraceLine)) :
    keysOf (a ++ b) = keysOf a ++ keysOf b := by
  simp [keysOf]

theorem keysOf_pushPoint (n : String) (d : Int) (v : Option Int)
    (tls : List (String × TraceLine)) :
    keysOf (pushPoint n d v tls) = keysOf tls := by
  induction tls with
  | nil => simp [pushPoint]
  | cons p rest ih =>
    by_cases h : p.1 = n
    · simp [pushPoint, h, keysOf]
    · simp [pushPoint, h, keysOf] at ih ⊢
      exact ih

theorem tlFind_pushPoint (m n : String) (d : Int) (v : Option Int)
    (tls : List (String × TraceLine)) :
    tlFind m (pushPoint n d v tls) =
      if m = n then
        (tlFind n tls).map fun t => { t with x := t.x ++ [d], y := t.y ++ [v] }
      else
        tlFind m tls := by
  induction tls with
  | nil => by_cases h : m = n <;> simp [pushPoint, tlFind, h]
  | cons p rest ih =>
    by_cases hpn : p.1 = n
    · by_cases hmn : m = n
      · simp [pushPoint, tlFind, hpn, hmn]
      · have hnm : ¬ n = m := fun hh => hmn hh.symm
        have hpm : ¬ p.1 = m := by
          rw [hpn]; exact hnm
        simp [pushPoint, tlFind, hpn, hmn, hnm, hpm]
    · by_cases hpm : p.1 = m
      · have hmn : ¬ m = n := by
          rw [← hpm]; exact hpn
        simp [pushPoint, tlFind, hpn, hpm, hmn]
      · simp [pushPoint, tlFind, hpn, hpm, ih]

theorem tlFind_mem {n : String} {t : TraceLine} {tls : List (String × TraceLine)} :
    tlFind n tls = some t → (n, t) ∈ tls := by
  induction tls with
  | nil => simp [tlFind]
  | cons p rest ih =>
    by_cases h : p.1 = n
    · intro hf
      simp [tlFind, h] at hf
      cases p with
      | mk k u =>
        simp at h
        subst h
        subst hf
        exact List.mem_cons_self _ _
    · intro hf
      simp [tlFind, h] at hf
      exact List.mem_cons_of_mem p (ih hf)

theorem mem_tlFind {n : String} {t : TraceLine} {tls : List (String × TraceLine)} :
    (keysOf tls).Nodup → (n, t) ∈ tls → tlFind n tls = some t := by
  induction tls with
  | nil =>
    intro _ hm
    simp at hm
  | cons p rest ih =>
    intro hnd hm
    have hnd1 : p.1 ∉ keysOf rest := (List.nodup_cons.mp hnd).1
    have hnd2 : (keysOf rest).Nodup := (List.nodup_cons.mp hnd).2
    rcases List.mem_cons.mp hm with h | h
    · subst h
      simp [tlFind]
    · have hne : ¬ p.1 = n := by
        intro he
        apply hnd1
        rw [he]
        exact List.mem_map_of_mem Prod.fst h
      simp [tlFind, hne]
      exact ih hnd2 h

theorem firstSightings_congr {s1 s2 : List String}
    (h : ∀ x, x ∈ s1 ↔ x ∈ s2) (rows : List RawRow) :
    firstSightings s1 rows = firstSightings s2 rows := by
  induction rows generalizing s1 s2 with
  | nil => simp [firstSightings]
  | cons r rs ih =>
    by_cases hm : resolvedName r ∈ s1
    · simp [firstSightings, hm, (h _).mp hm]
      exact ih h
    · have hm2 : resolvedName r ∉ s2 := fun hh => hm ((h _).mpr hh)
      simp [firstSightings, hm, hm2]
      exact ih fun x => by simp [h x]

theorem firstSightings_append (seen : List String) (a b : List RawRow) :
    firstSightings seen (a ++ b) =
      firstSightings seen a ++
        firstSightings (firstSightings seen a ++ seen) b := by
  induction a generalizing seen with
  | nil => simp [firstSightings]
  | cons r rs ih =>
    by_cases hm : resolvedName r ∈ seen
    · simp [firstSightings, hm]
      exact ih seen
    · simp [firstSightings, hm, ih (resolvedName r :: seen)]
      refine firstSightings_congr (fun x => ?_) b
      simp
      tauto

theorem mem_firstSightings (x : String) (seen : List String) (rows : List RawRow) :
    x ∈ firstSightings seen rows ↔
      x ∉ seen ∧ x ∈ rows.map resolvedName := by
  induction rows generalizing seen with
  | nil => simp [firstSightings]
  | cons r rs ih =>
    by_cases hm : resolvedName r ∈ seen
    · rw [show firstSightings seen (r :: rs) = firstSightings seen rs by
        simp [firstSightings, hm]]
      rw [ih]
      simp only [List.map_cons, List.mem_cons]
      constructor
      · rintro ⟨hs, hr⟩
        exact ⟨hs, Or.inr hr⟩
      · rintro ⟨hs, hr | hr⟩
        · exact absurd (hr ▸ hm) hs
        · exact ⟨hs, hr⟩
    · rw [show firstSightings seen (r :: rs) =
          resolvedName r :: firstSightings (resolvedName r :: seen) rs by
        simp [firstSightings, hm]]
      rw [List.mem_cons, ih]
      simp only [List.map_cons, List.mem_cons]
      constructor
      · rintro (hx | ⟨hs, hr⟩)
        · exact ⟨hx ▸ hm, Or.inl hx⟩
        · exact ⟨fun hh => hs (Or.inr hh), Or.inr hr⟩
      · rintro ⟨hs, hx | hr⟩
        · exact Or.inl hx
        · by_cases hxn : x = resolvedName r
          · exact Or.inl hxn
          · refine Or.inr ⟨?_, hr⟩
            rintro (hh | hh)
            · exact hxn hh
            · exact hs hh

theorem firstSightings_nodup (seen : List String) (rows : List RawRow) :
    (firstSightings seen rows).Nodup := by
  induction rows generalizing seen with
  | nil => simp [firstSightings]
  | cons r rs ih =>
    by_cases hm : resolvedName r ∈ seen
    · simp [firstSightings, hm]
      exact ih seen
    · simp [firstSightings, hm]
      refine ⟨?_, ih (resolvedName r :: seen)⟩
      intro hin
      have := (mem_firstSightings _ _ _).mp hin
      simp at this

theorem processRow_fst (tls : List (String × TraceLine)) (r : RawRow) :
    (processRow tls r).1 =
      pushPoint (resolvedName r) r.DATE r.AVG_BUILD_TIME
        (if tlFind (resolvedName r) tls = none then
          tls ++
            [(resolvedName r,
              GetTraceLineData (resolvedName r) [] [] (widthOf (resolvedName r)))]
        else tls) := by
  simp [processRow]

theorem keysOf_processRow (tls : List (String × TraceLine)) (r : RawRow) :
    keysOf (processRow tls r).1 =
      if resolvedName r ∈ keysOf tls then keysOf tls
      else keysOf tls ++ [resolvedName r] := by
  rw [processRow_fst, keysOf_pushPoint]
  by_cases h : resolvedName r ∈ keysOf tls
  · have hf : ¬ tlFind (resolvedName r) tls = none := by
      rw [tlFind_eq_none_iff]
      simp [h]
    rw [if_neg hf, if_pos h]
  · have hf : tlFind (resolvedName r) tls = none := by
      rw [tlFind_eq_none_iff]
      exact h
    rw [if_pos hf, if_neg h, keysOf_append]
    rfl

theorem tlFind_processRow (m : String) (tls : List (String × TraceLine)) (r : RawRow) :
    tlFind m (processRow tls r).1 =
      if m = resolvedName r then
        match tlFind m tls with
        | some t =>
          some { t with x := t.x ++ [r.DATE], y := t.y ++ [r.AVG_BUILD_TIME] }
        | none =>
          some (GetTraceLineData m [r.DATE] [r.AVG_BUILD_TIME] (widthOf m))
      else
        tlFind m tls := by
  rw [processRow_fst, tlFind_pushPoint]
  by_cases hm : m = resolvedName r
  · rw [if_pos hm, if_pos hm, hm]
    cases h : tlFind (resolvedName r) tls with
    | none =>
      rw [if_pos rfl, tlFind_append, h]
      simp [tlFind, GetTraceLineData]
    | some t0 =>
      rw [if_neg (by simp), h]
      simp
  · rw [if_neg hm, if_neg hm]
    have hrm : ¬ resolvedName r = m := fun hh => hm hh.symm
    cases h : tlFind (resolvedName r) tls with
    | none =>
      rw [if_pos rfl, tlFind_append]
      cases h2 : tlFind m tls with
      | none => simp [tlFind, hrm]
      | some t1 => simp
    | some t0 =>
      rw [if_neg (by simp)]

theorem processRow_snd (tls : List (String × TraceLine)) (r : RawRow) :
    (processRow tls r).2 = normalizeRow r := by
  simp [processRow]

theorem processRows_snd (tls : List (String × TraceLine)) (rows : List RawRow) :
    (processRows tls rows).2 = rows.map normalizeRow := by
  induction rows generalizing tls with
  | nil => simp [processRows]
  | cons r rs ih =>
    simp [processRows, processRow_snd, ih]

theorem keysOf_processRows (rows : List RawRow) (tls : List (String × TraceLine)) :
    keysOf (processRows tls rows).1 =
      keysOf tls ++ firstSightings (keysOf tls) rows := by
  induction rows generalizing tls with
  | nil => simp [processRows, firstSightings]
  | cons r rs ih =>
    by_cases h : resolvedName r ∈ keysOf tls
    · rw [show (processRows tls (r :: rs)).1 = (processRows (processRow tls r).1 rs).1 by
        simp [processRows]]
      rw [ih, keysOf_processRow]
      simp [h, firstSightings]
    · rw [show (processRows tls (r :: rs)).1 = (processRows (processRow tls r).1 rs).1 by
        simp [processRows]]
      rw [ih, keysOf_processRow]
      simp only [h, reduceIte]
      rw [show firstSightings (keysOf tls) (r :: rs) =
          resolvedName r :: firstSightings (resolvedName r :: keysOf tls) rs by
        simp [firstSightings, h]]
      have hc : ∀ x, x ∈ keysOf tls ++ [resolvedName r] ↔
          x ∈ resolvedName r :: keysOf tls := fun x => by
        simp
        tauto
      rw [firstSightings_congr hc rs]
      simp

theorem routedDates_cons (n : String) (r : RawRow) (rs : List RawRow) :
    routedDates n (r :: rs) =
      if resolvedName r = n then r.DATE :: routedDates n rs
      else routedDates n rs := by
  by_cases h : resolvedName r = n <;> simp [routedDates, h]

theorem routedAvgs_cons (n : String) (r : RawRow) (rs : List RawRow) :
    routedAvgs n (r :: rs) =
      if resolvedName r = n then r.AVG_BUILD_TIME :: routedAvgs n rs
      else routedAvgs n rs := by
  by_cases h : resolvedName r = n <;> simp [routedAvgs, h]

theorem routedDates_append (n : String) (a b : List RawRow) :
    routedDates n (a ++ b) = routedDates n a ++ routedDates n b := by
  simp [routedDates]

theorem routedAvgs_append (n : String) (a b : List RawRow) :
    routedAvgs n (a ++ b) = routedAvgs n a ++ routedAvgs n b := by
  simp [routedAvgs]

theorem tlFind_processRows (rows : List RawRow) (m : String)
    (tls : List (String × TraceLine)) :
    tlFind m (processRows tls rows).1 =
      match tlFind m tls with
      | some t =>
        some { t with x := t.x ++ routedDates m rows, y := t.y ++ routedAvgs m rows }
      | none =>
        if m ∈ rows.map resolvedName then
          some (GetTraceLineData m (routedDates m rows) (routedAvgs m rows) (widthOf m))
        else
          none := by
  induction rows generalizing tls with
  | nil =>
    cases h : tlFind m tls <;>
      simp [processRows, routedDates, routedAvgs, h]
  | cons r rs ih =>
    rw [show (processRows tls (r :: rs)).1 = (processRows (processRow tls r).1 rs).1 by
      simp [processRows]]
    rw [ih, tlFind_processRow]
    by_cases hm : m = resolvedName r
    · subst hm
      rw [if_pos rfl]
      cases h : tlFind (resolvedName r) tls with
      | none => simp [h, routedDates_cons, routedAvgs_cons, GetTraceLineData]
      | some t0 => simp [h, routedDates_cons, routedAvgs_cons]
    · have hrm : ¬ resolvedName r = m := fun hh => hm hh.symm
      rw [if_neg hm]
      cases h : tlFind m tls with
      | none => simp [h, routedDates_cons, routedAvgs_cons, hrm, hm]
      | some t0 => simp [h, routedDates_cons, routedAvgs_cons, hrm]

theorem keptRows_nil : keptRows [] = [] := by
  simp [keptRows]

theorem keptRows_cons (s : List RawRow) (ss : List (List RawRow)) :
    keptRows (s :: ss) =
      if s.length < 2 then keptRows ss else s ++ keptRows ss := by
  by_cases h : s.length < 2
  · have h2 : ¬ 2 ≤ s.length := by omega
    simp [keptRows, h, h2]
  · have h2 : 2 ≤ s.length := by omega
    simp [keptRows, h, h2]

theorem processAll_fst_cons (tls : List (String × TraceLine)) (s : List RawRow)
    (ss : List (List RawRow)) :
    (processAll tls (s :: ss)).1 =
      (processAll (if s.length < 2 then tls else (processRows tls s).1) ss).1 := by
  by_cases h : s.length < 2 <;> simp [processAll, h]

theorem processAll_snd (seqs : List (List RawRow)) (tls : List (String × TraceLine)) :
    (processAll tls seqs).2 =
      seqs.map fun s => if s.length < 2 then s else s.map normalizeRow := by
  induction seqs generalizing tls with
  | nil => simp [processAll]
  | cons s ss ih =>
    by_cases h : s.length < 2
    · simp [processAll, h, ih]
    · simp [processAll, h, ih, processRows_snd]

theorem keysOf_processAll (seqs : List (List RawRow)) (tls : List (String × TraceLine)) :
    keysOf (processAll tls seqs).1 =
      keysOf tls ++ firstSightings (keysOf tls) (keptRows seqs) := by
  induction seqs generalizing tls with
  | nil => simp [processAll, keptRows_nil, firstSightings]
  | cons s ss ih =>
    rw [processAll_fst_cons, keptRows_cons]
    by_cases h : s.length < 2
    · rw [if_pos h, if_pos h, ih]
    · rw [if_neg h, if_neg h, ih, keysOf_processRows, firstSightings_append]
      have hc : ∀ x, x ∈ keysOf tls ++ firstSightings (keysOf tls) s ↔
          x ∈ firstSightings (keysOf tls) s ++ keysOf tls := fun x => by
        simp
        tauto
      rw [firstSightings_congr hc (keptRows ss)]
      simp

theorem routedDates_eq_nil {n : String} {rows : List RawRow}
    (h : n ∉ rows.map resolvedName) : routedDates n rows = [] := by
  have : (rows.filter fun r => decide (resolvedName r = n)) = [] := by
    refine List.filter_eq_nil_iff.mpr fun r hr => ?_
    simp only [decide_eq_true_eq]
    intro he
    exact h (he ▸ List.mem_map_of_mem resolvedName hr)
  simp [routedDates, this]

theorem routedAvgs_eq_nil {n : String} {rows : List RawRow}
    (h : n ∉ rows.map resolvedName) : routedAvgs n rows = [] := by
  have : (rows.filter fun r => decide (resolvedName r = n)) = [] := by
    refine List.filter_eq_nil_iff.mpr fun r hr => ?_
    simp only [decide_eq_true_eq]
    intro he
    exact h (he ▸ List.mem_map_of_mem resolvedName hr)
  simp [routedAvgs, this]

theorem tlFind_processAll (seqs : List (List RawRow)) (m : String)
    (tls : List (String × TraceLine)) :
    tlFind m (processAll tls seqs).1 =
      match tlFind m tls with
      | some t =>
        some { t with x := t.x ++ routedDates m (keptRows seqs),
                      y := t.y ++ routedAvgs m (keptRows seqs) }
      | none =>
        if m ∈ (keptRows seqs).map resolvedName then
          some (GetTraceLineData m (routedDates m (keptRows seqs))
            (routedAvgs m (keptRows seqs)) (widthOf m))
        else
          none := by
  induction seqs generalizing tls with
  | nil =>
    cases h : tlFind m tls <;>
      simp [processAll, keptRows_nil, routedDates, routedAvgs, h]
  | cons s ss ih =>
    rw [processAll_fst_cons, keptRows_cons]
    by_cases h : s.length < 2
    · rw [if_pos h, if_pos h, ih]
    · rw [if_neg h, if_neg h, ih, tlFind_processRows,
        routedDates_append, routedAvgs_append]
      cases h1 : tlFind m tls with
      | some t0 => simp
      | none =>
        by_cases h2 : m ∈ s.map resolvedName
        · simp [h2, GetTraceLineData]
        · simp [h2, routedDates_eq_nil h2, routedAvgs_eq_nil h2]

theorem insertIndexed_perm (p : String × TraceLine) (l : List (String × TraceLine)) :
    List.Perm (insertIndexed p l) (p :: l) := by
  induction l with
  | nil => simp [insertIndexed]
  | cons q rest ih =>
    by_cases h : idxVal p.1 ≤ idxVal q.1
    · simp [insertIndexed, h]
    · rw [insertIndexed, if_neg h]
      exact (ih.cons q).trans (List.Perm.swap p q rest)

theorem sortIndexed_perm (l : List (String × TraceLine)) :
    List.Perm (sortIndexed l) l := by
  induction l with
  | nil => simp [sortIndexed]
  | cons p rest ih =>
    exact (insertIndexed_perm p (sortIndexed rest)).trans (ih.cons p)

theorem forInOrder_perm (tls : List (String × TraceLine)) :
    List.Perm (forInOrder tls) tls := by
  unfold forInOrder
  exact ((sortIndexed_perm _).append_right _).trans
    (List.filter_append_perm (fun p => isIndexKey p.1) tls)

theorem forInOrder_eq_self (tls : List (String × TraceLine))
    (h : ∀ p ∈ tls, isIndexKey p.1 = false) :
    forInOrder tls = tls := by
  unfold forInOrder
  rw [List.filter_eq_nil_iff.mpr (fun p hp => by simp [h p hp]),
    List.filter_eq_self.mpr (fun p hp => by simp [h p hp])]
  simp [sortIndexed]

theorem mapToKpiStateOrNull_gate (cfg : MapperConfig) (cf ct : Int)
    (ja : List (List RawRow))
    (h : (ja.getD 0 []).length < 2 ∨ (ja.getD 1 []).length < 6) :
    mapToKpiStateOrNull cfg cf ct ja = (none, ja) := by
  unfold mapToKpiStateOrNull
  rw [if_pos h]

theorem mapToKpiStateOrNull_pass (cfg : MapperConfig) (cf ct : Int)
    (ja : List (List RawRow))
    (h : ¬ ((ja.getD 0 []).length < 2 ∨ (ja.getD 1 []).length < 6)) :
    mapToKpiStateOrNull cfg cf ct ja =
      (some
        { data := (forInOrder (processAll [] ja).1).map Prod.snd
          layout :=
            { title := cfg.title
              showlegend := true
              xaxisFrom := cf
              xaxisTo := ct
              yaxis := yAxisTitle
              targetGoal := cfg.targetGoal
              stretchGoal := cfg.stretchGoal } },
        (processAll [] ja).2) := by
  unfold mapToKpiStateOrNull
  rw [if_neg h]

theorem mapToKpiStateOrNull_some_inv {cfg : MapperConfig} {cf ct : Int}
    {ja : List (List RawRow)} {p : KpiState}
    (h : (mapToKpiStateOrNull cfg cf ct ja).1 = some p) :
    ¬ ((ja.getD 0 []).length < 2 ∨ (ja.getD 1 []).length < 6) ∧
      p.data = (forInOrder (processAll [] ja).1).map Prod.snd ∧
      p.layout =
        { title := cfg.title
          showlegend := true
          xaxisFrom := cf
          xaxisTo := ct
          yaxis := yAxisTitle
          targetGoal := cfg.targetGoal
          stretchGoal := cfg.stretchGoal } := by
  by_cases hg : (ja.getD 0 []).length < 2 ∨ (ja.getD 1 []).length < 6
  · rw [mapToKpiStateOrNull_gate cfg cf ct ja hg] at h
    simp at h
  · rw [mapToKpiStateOrNull_pass cfg cf ct ja hg] at h
    simp at h
    exact ⟨hg, by simp [← h], by simp [← h]⟩

theorem keysOf_finalTable (ja : List (List RawRow)) :
    keysOf (processAll [] ja).1 = firstSightings [] (keptRows ja) := by
  have := keysOf_processAll ja []
  simpa [keysOf] using this

theorem tlFind_finalTable (ja : List (List RawRow)) (m : String) :
    tlFind m (processAll [] ja).1 =
      if m ∈ (keptRows ja).map resolvedName then
        some (GetTraceLineData m (routedDates m (keptRows ja))
          (routedAvgs m (keptRows ja)) (widthOf m))
      else
        none := by
  have := tlFind_processAll ja m []
  simpa [tlFind] using this

theorem nodup_keysOf_finalTable (ja : List (List RawRow)) :
    (keysOf (processAll [] ja).1).Nodup := by
  rw [keysOf_finalTable]
  exact firstSightings_nodup [] (keptRows ja)

theorem mem_finalTable (ja : List (List RawRow)) (k : String) (t : TraceLine) :
    (k, t) ∈ (processAll [] ja).1 ↔
      k ∈ (keptRows ja).map resolvedName ∧
        t = GetTraceLineData k (routedDates k (keptRows ja))
          (routedAvgs k (keptRows ja)) (widthOf k) := by
  constructor
  · intro hm
    have hf := mem_tlFind (nodup_keysOf_finalTable ja) hm
    rw [tlFind_finalTable] at hf
    by_cases hk : k ∈ (keptRows ja).map resolvedName
    · rw [if_pos hk] at hf
      exact ⟨hk, by injection hf with hh; exact hh.symm⟩
    · rw [if_neg hk] at hf
      exact absurd hf (by simp)
  · rintro ⟨hk, ht⟩
    apply tlFind_mem
    rw [tlFind_finalTable, if_pos hk, ht]

theorem mem_data_iff (ja : List (List RawRow)) (t : TraceLine) :
    t ∈ (forInOrder (processAll [] ja).1).map Prod.snd ↔
      ∃ k, (k, t) ∈ (processAll [] ja).1 := by
  rw [List.mem_map]
  constructor
  · rintro ⟨q, hq, hqt⟩
    exact ⟨q.1, (forInOrder_perm _).subset (hqt ▸ hq)⟩
  · rintro ⟨k, hk⟩
    exact ⟨(k, t), (forInOrder_perm _).symm.subset hk, rfl⟩

theorem names_of_data (ja : List (List RawRow)) :
    ((forInOrder (processAll [] ja).1).map Prod.snd).map TraceLine.name =
      (forInOrder (processAll [] ja).1).map Prod.fst := by
  rw [List.map_map]
  refine List.map_congr_left fun q hq => ?_
  have hmem : q ∈ (processAll [] ja).1 := (forInOrder_perm _).subset hq
  have := (mem_finalTable ja q.1 q.2).mp hmem
  simp only [Function.comp_apply]
  rw [this.2]
  rfl

/-- C1: when the overall sequence has fewer than 2 rows or the grouped
sequence has fewer than 6 rows, mapToKpiStateOrNull returns null and leaves
the rows untouched (no assembly); otherwise it returns a non-null payload.
The hypothesis restricts to inputs with at least two sequences, the only
inputs the source function can run on without a type error. -/
theorem claimC1 (cfg : MapperConfig) (cf ct : Int) (ja : List (List RawRow))
    (_hlen : 2 ≤ ja.length) :
    (((ja.getD 0 []).length < 2 ∨ (ja.getD 1 []).length < 6) →
      mapToKpiStateOrNull cfg cf ct ja = (none, ja)) ∧
    (¬ ((ja.getD 0 []).length < 2 ∨ (ja.getD 1 []).length < 6) →
      ((mapToKpiStateOrNull cfg cf ct ja).1).isSome = true) := by
  constructor
  · intro h
    exact mapToKpiStateOrNull_gate cfg cf ct ja h
  · intro h
    rw [mapToKpiStateOrNull_pass cfg cf ct ja h]
    rfl

/-- Witness for C1: the gate fires on a 1-row overall sequence, and passes on
a concrete 2-sequence input with 2 overall and 6 grouped rows. -/
theorem claimC1_witness :
    mapToKpiStateOrNull cfgEx 0 1 [[⟨1, none, none⟩], []]
        = (none, [[⟨1, none, none⟩], []]) ∧
    ((mapToKpiStateOrNull cfgEx 0 1 jaAlpha).1).isSome = true := by
  constructor
  · exact (claimC1 cfgEx 0 1 [[⟨1, none, none⟩], []] (by decide)).1 (by decide)
  · exact (claimC1 cfgEx 0 1 jaAlpha (by decide)).2 (by decide)

/-- C5: getQueryStrings derives its lookback constant nPrevDays as the moving
average period of the date range minus 1, and its coverage constant
minPrevDayData as the floor of half that period; nPrevDays is spliced into
both query strings, minPrevDayData only into the grouped one. -/
theorem claimC5 (gp : Int → Int) (cfg : MapperConfig) (fromD toD dateRange : Int) :
    (getQueryStrings gp cfg fromD toD dateRange).map QueryDescriptor.nPrevDays
        = [gp dateRange - 1, gp dateRange - 1] ∧
    (getQueryStrings gp cfg fromD toD dateRange).map QueryDescriptor.minPrevDayData
        = [none, some (Int.fdiv (gp dateRange) 2)] := by
  simp [getQueryStrings]

/-- C6: GetKpiStateOrNull hands getQueryStrings the from date shifted back 2
days, the unshifted to date, and a date range computed from the original
dates as to minus from plus 1; the query descriptors carry exactly those
dates, and any returned payload keeps the unshifted dates as its chart axis
bounds. -/
theorem claimC6 (gp : Int → Int) (cfg : MapperConfig)
    (queryFn : QueryDescriptor → List RawRow) (fromD toD : Int) :
    GetKpiStateOrNull gp cfg queryFn fromD toD =
      mapToKpiStateOrNull cfg fromD toD
        ((getQueryStrings gp cfg (fromD - 2) toD ((toD - fromD) + 1)).map queryFn) ∧
    (∀ q ∈ getQueryStrings gp cfg (fromD - 2) toD (GetDateRange fromD toD),
      q.fromDate = fromD - 2 ∧ q.toDate = toD) ∧
    GetDateRange fromD toD = (toD - fromD) + 1 ∧
    (∀ p, (GetKpiStateOrNull gp cfg queryFn fromD toD).1 = some p →
      p.layout.xaxisFrom = fromD ∧ p.layout.xaxisTo = toD) := by
  refine ⟨rfl, ?_, rfl, ?_⟩
  · intro q hq
    simp [getQueryStrings] at hq
    rcases hq with h | h <;> (rw [h]; exact ⟨rfl, rfl⟩)
  · intro p hp
    have h := mapToKpiStateOrNull_some_inv hp
    rw [h.2.2]
    exact ⟨rfl, rfl⟩

/-- C7: GetStartDate and GetEndDate fail exactly when the query returned a
number of rows different from 1 or a single row with a null DATE; each
failure makes exactly one call to the logging collaborator, and a well-formed
single-row result is returned as its DATE with no logging. -/
theorem claimC7 (title : String) (results : List DateRow) :
    ((∃ e, (GetStartDate title results).1 = Except.error e) ↔
      (results.length ≠ 1 ∨ (results.getD 0 ⟨none⟩).DATE = none)) ∧
    ((GetStartDate title results).2 =
      if results.length ≠ 1 ∨ (results.getD 0 ⟨none⟩).DATE = none then 1 else 0) ∧
    (∀ d, results = [⟨some d⟩] → GetStartDate title results = (Except.ok d, 0)) ∧
    ((∃ e, (GetEndDate title results).1 = Except.error e) ↔
      (results.length ≠ 1 ∨ (results.getD 0 ⟨none⟩).DATE = none)) ∧
    ((GetEndDate title results).2 =
      if results.length ≠ 1 ∨ (results.getD 0 ⟨none⟩).DATE = none then 1 else 0) ∧
    (∀ d, results = [⟨some d⟩] → GetEndDate title results = (Except.ok d, 0)) := by
  cases results with
  | nil =>
    have hS : GetStartDate title [] =
        (Except.error
          ("kpi " ++ title ++ ": start date query must return only 1 result."), 1) := by
      simp [GetStartDate]
    have hE : GetEndDate title [] =
        (Except.error
          ("kpi " ++ title ++ ": end date query must return only 1 result."), 1) := by
      simp [GetEndDate]
    refine ⟨?_, ?_, ?_, ?_, ?_, ?_⟩
    · rw [hS]
      exact ⟨fun _ => Or.inl (by simp), fun _ => ⟨_, rfl⟩⟩
    · rw [hS]
      simp
    · intro d hres
      simp at hres
    · rw [hE]
      exact ⟨fun _ => Or.inl (by simp), fun _ => ⟨_, rfl⟩⟩
    · rw [hE]
      simp
    · intro d hres
      simp at hres
  | cons r rest =>
    cases rest with
    | nil =>
      cases hr : r.DATE with
      | none =>
        have hS : GetStartDate title [r] =
            (Except.error
              ("kpi " ++ title ++ ": start date query must return a \"DATE\" column."), 1) := by
          simp [GetStartDate, hr]
        have hE : GetEndDate title [r] =
            (Except.error
              ("kpi " ++ title ++ ": end date query must return a \"DATE\" column."), 1) := by
          simp [GetEndDate, hr]
        refine ⟨?_, ?_, ?_, ?_, ?_, ?_⟩
        · rw [hS]
          refine ⟨fun _ => Or.inr ?_, fun _ => ⟨_, rfl⟩⟩
          simpa [List.getD] using hr
        · rw [hS]
          simp [List.getD, hr]
        · intro d hres
          injection hres with h1 _
          rw [h1] at hr
          simp at hr
        · rw [hE]
          refine ⟨fun _ => Or.inr ?_, fun _ => ⟨_, rfl⟩⟩
          simpa [List.getD] using hr
        · rw [hE]
          simp [List.getD, hr]
        · intro d hres
          injection hres with h1 _
          rw [h1] at hr
          simp at hr
      | some d0 =>
        have hS : GetStartDate title [r] = (Except.ok d0, 0) := by
          simp [GetStartDate, hr]
        have hE : GetEndDate title [r] = (Except.ok d0, 0) := by
          simp [GetEndDate, hr]
        refine ⟨?_, ?_, ?_, ?_, ?_, ?_⟩
        · rw [hS]
          simp [List.getD, hr]
        · rw [hS]
          simp [List.getD, hr]
        · intro d hres
          injection hres with h1 _
          rw [h1] at hr
          injection hr with h2
          rw [hS, h2]
        · rw [hE]
          simp [List.getD, hr]
        · rw [hE]
          simp [List.getD, hr]
        · intro d hres
          injection hres with h1 _
          rw [h1] at hr
          injection hr with h2
          rw [hE, h2]
    | cons r2 rest2 =>
      have hlen : (r :: r2 :: rest2).length ≠ 1 := by
        simp
      have hS : GetStartDate title (r :: r2 :: rest2) =
          (Except.error
            ("kpi " ++ title ++ ": start date query must return only 1 result."), 1) := by
        simp [GetStartDate]
      have hE : GetEndDate title (r :: r2 :: rest2) =
          (Except.error
            ("kpi " ++ title ++ ": end date query must return only 1 result."), 1) := by
        simp [GetEndDate]
      refine ⟨?_, ?_, ?_, ?_, ?_, ?_⟩
      · rw [hS]
        exact ⟨fun _ => Or.inl hlen, fun _ => ⟨_, rfl⟩⟩
      · rw [hS]
        simp
      · intro d hres
        simp at hres
      · rw [hE]
        exact ⟨fun _ => Or.inl hlen, fun _ => ⟨_, rfl⟩⟩
      · rw [hE]
        simp
      · intro d hres
        simp at hres
/-- Helper for C9: the assembly loop ignores exactly the row sequences of
length below 2, so filtering them away leaves the trace-line table
unchanged. -/
theorem processAll_filter (seqs : List (List RawRow)) (tls : List (String × TraceLine)) :
    (processAll tls seqs).1 =
      (processAll tls (seqs.filter fun s => decide (2 ≤ s.length))).1 := by
  induction seqs generalizing tls with
  | nil => rfl
  | cons s ss ih =>
    by_cases h : s.length < 2
    · have h2 : ¬ 2 ≤ s.length := by omega
      rw [processAll_fst_cons, if_pos h]
      rw [show (s :: ss).filter (fun s => decide (2 ≤ s.length)) =
          ss.filter (fun s => decide (2 ≤ s.length)) by simp [h2]]
      exact ih tls
    · have h2 : 2 ≤ s.length := by omega
      rw [processAll_fst_cons, if_neg h]
      rw [show (s :: ss).filter (fun s => decide (2 ≤ s.length)) =
          s :: ss.filter (fun s => decide (2 ≤ s.length)) by simp [h2]]
      rw [processAll_fst_cons, if_neg h]
      exact ih _

/-- C2: each processed row has its group property resolved to Overall when
absent or empty and to its literal value otherwise; a trace line is created
per resolved name on first sighting with width 3 for Overall and 1 otherwise,
and the payload holds exactly one trace line per distinct resolved name. -/
theorem claimC2 (cfg : MapperConfig) (cf ct : Int) (ja : List (List RawRow))
    (p : KpiState) (h : (mapToKpiStateOrNull cfg cf ct ja).1 = some p) :
    (p.data.map TraceLine.name).Nodup ∧
    (∀ n, n ∈ p.data.map TraceLine.name ↔ n ∈ (keptRows ja).map resolvedName) ∧
    (∀ t ∈ p.data, t.width = if t.name = "Overall" then 3 else 1) ∧
    (∀ tls r, ((processRow tls r).2).group = some (resolvedName r)) ∧
    (∀ r : RawRow, (r.group = none ∨ r.group = some "") → resolvedName r = "Overall") ∧
    (∀ r : RawRow, ∀ s, ¬ s = "" → r.group = some s → resolvedName r = s) := by
  obtain ⟨hg, hdata, hlay⟩ := mapToKpiStateOrNull_some_inv h
  have hnames : p.data.map TraceLine.name =
      (forInOrder (processAll [] ja).1).map Prod.fst := by
    rw [hdata]
    exact names_of_data ja
  have hperm : List.Perm ((forInOrder (processAll [] ja).1).map Prod.fst)
      (keysOf (processAll [] ja).1) :=
    (forInOrder_perm _).map Prod.fst
  refine ⟨?_, ?_, ?_, ?_, ?_, ?_⟩
  · rw [hnames]
    exact hperm.nodup_iff.mpr (nodup_keysOf_finalTable ja)
  · intro n
    rw [hnames, hperm.mem_iff, keysOf_finalTable, mem_firstSightings]
    simp
  · intro t ht
    rw [hdata] at ht
    obtain ⟨k, hk⟩ := (mem_data_iff ja t).mp ht
    obtain ⟨hkm, hkt⟩ := (mem_finalTable ja k t).mp hk
    subst hkt
    simp [GetTraceLineData, widthOf]
  · intro tls r
    simp [processRow, normalizeRow]
  · intro r hg2
    rcases hg2 with h1 | h1 <;> simp [resolvedName, h1]
  · intro r s hs hg2
    simp [resolvedName, hg2, hs]

/-- Witness for C2: on a concrete input the payload has pairwise distinct
series names, and contains an Overall series exactly because a kept row
resolves to Overall. -/
theorem claimC2_witness :
    (pAlpha.data.map TraceLine.name).Nodup ∧
    ("Overall" ∈ pAlpha.data.map TraceLine.name ↔
      "Overall" ∈ (keptRows jaAlpha).map resolvedName) := by
  have h := claimC2 cfgEx 0 1 jaAlpha pAlpha (by decide)
  exact ⟨h.1, h.2.1 "Overall"⟩

/-- C3 counterexample: with group names A and 5 (sighted in that order after
Overall), the payload series order is 5, Overall, A, because the trace-line
table is a JavaScript Array and for..in enumerates the array-index key 5
first; first-sighting order would be Overall, A, 5. -/
theorem claimC3_counterexample :
    (mapToKpiStateOrNull cfgEx 0 1 jaNum).1.map (fun p => p.data.map TraceLine.name)
        = some ["5", "Overall", "A"] ∧
    firstSightings [] (keptRows jaNum) = ["Overall", "A", "5"] ∧
    (["5", "Overall", "A"] : List String) ≠ ["Overall", "A", "5"] :=
  ⟨by decide, by decide, by decide⟩

/-- C3 as amended: past the sufficiency gate the payload series order equals
the first-sighting order of the resolved group names across the overall then
grouped sequences, provided no resolved group name is a canonical array-index
string (names that are such index strings are enumerated first, in ascending
numeric order, by the for..in loop over the Array used as a map). -/
theorem claimC3 (cfg : MapperConfig) (cf ct : Int) (ja : List (List RawRow))
    (p : KpiState) (h : (mapToKpiStateOrNull cfg cf ct ja).1 = some p)
    (hni : ∀ r ∈ keptRows ja, isIndexKey (resolvedName r) = false) :
    p.data.map TraceLine.name = firstSightings [] (keptRows ja) := by
  obtain ⟨hg, hdata, hlay⟩ := mapToKpiStateOrNull_some_inv h
  have hkeys : ∀ q ∈ (processAll [] ja).1, isIndexKey q.1 = false := by
    intro q hq
    obtain ⟨hkm, hkt⟩ := (mem_finalTable ja q.1 q.2).mp hq
    obtain ⟨r, hr, hrn⟩ := List.mem_map.mp hkm
    exact hrn ▸ hni r hr
  rw [hdata, names_of_data, forInOrder_eq_self _ hkeys]
  exact keysOf_finalTable ja

/-- Witness for C3 as amended: on a concrete input with non-index group names
B and A sighted in non-alphabetical order, the payload series order equals the
first-sighting order. -/
theorem claimC3_witness :
    pAlpha.data.map TraceLine.name = firstSightings [] (keptRows jaAlpha) :=
  claimC3 cfgEx 0 1 jaAlpha pAlpha (by decide) (by decide)

/-- C4 counterexample: the computation mutates its input rows; on a concrete
input past the gate, the post-call row sequences differ from the input (the
overall rows and the empty-group row have their group property set to
Overall). -/
theorem claimC4_counterexample :
    (mapToKpiStateOrNull cfgEx 0 1 jaAlpha).2 ≠ jaAlpha := by decide

/-- C4 as amended: mapToKpiStateOrNull mutates exactly the rows with absent
or empty group property, setting that property to Overall, in every processed
sequence when the gate passes; all other fields and rows are unchanged, and
nothing is mutated when the gate fails. -/
theorem claimC4 (cfg : MapperConfig) (cf ct : Int) (ja : List (List RawRow)) :
    (mapToKpiStateOrNull cfg cf ct ja).2 =
      (if (ja.getD 0 []).length < 2 ∨ (ja.getD 1 []).length < 6 then ja
       else ja.map fun s => if s.length < 2 then s else s.map normalizeRow) ∧
    (∀ r : RawRow, normalizeRow r =
      if r.group = none ∨ r.group = some "" then { r with group := some "Overall" }
      else r) := by
  constructor
  · by_cases hg : (ja.getD 0 []).length < 2 ∨ (ja.getD 1 []).length < 6
    · rw [mapToKpiStateOrNull_gate cfg cf ct ja hg, if_pos hg]
    · rw [mapToKpiStateOrNull_pass cfg cf ct ja hg, if_neg hg]
      exact processAll_snd ja []
  · intro r
    cases r with
    | mk dd vv gg =>
      cases gg with
      | none => simp [normalizeRow, resolvedName]
      | some s =>
        by_cases hs : s = ""
        · subst hs
          simp [normalizeRow, resolvedName]
        · simp [normalizeRow, resolvedName, hs]

/-- C8: every trace line of a returned payload keeps its x and y sequences at
equal length, with its y values exactly the average values, nulls included in
place, of the rows routed to it in encounter order. -/
theorem claimC8 (cfg : MapperConfig) (cf ct : Int) (ja : List (List RawRow))
    (p : KpiState) (h : (mapToKpiStateOrNull cfg cf ct ja).1 = some p) :
    ∀ t ∈ p.data,
      t.x.length = t.y.length ∧
      t.x = routedDates t.name (keptRows ja) ∧
      t.y = routedAvgs t.name (keptRows ja) := by
  obtain ⟨hg, hdata, hlay⟩ := mapToKpiStateOrNull_some_inv h
  intro t ht
  rw [hdata] at ht
  obtain ⟨k, hk⟩ := (mem_data_iff ja t).mp ht
  obtain ⟨hkm, hkt⟩ := (mem_finalTable ja k t).mp hk
  subst hkt
  refine ⟨?_, ?_, ?_⟩ <;> simp [GetTraceLineData, routedDates, routedAvgs]

/-- Witness for C8: on a concrete payload series (the B line of jaAlpha,
which contains a null point), the x and y lengths agree and the y values are
the routed averages. -/
theorem claimC8_witness :
    (pAlpha.data.getD 1 defaultTrace).x.length
        = (pAlpha.data.getD 1 defaultTrace).y.length ∧
    (pAlpha.data.getD 1 defaultTrace).y
        = routedAvgs (pAlpha.data.getD 1 defaultTrace).name (keptRows jaAlpha) := by
  have h := claimC8 cfgEx 0 1 jaAlpha pAlpha (by decide)
    (pAlpha.data.getD 1 defaultTrace) (by decide)
  exact ⟨h.1, h.2.2⟩

/-- C9: a row sequence of length below 2 is skipped whole by the assembly
loop, independently of the global gate (filtering such sequences away leaves
the trace-line table unchanged), and for a gate-passing input the returned
payload is unchanged by that filtering. -/
theorem claimC9 (tls : List (String × TraceLine)) (seqs : List (List RawRow))
    (cfg : MapperConfig) (cf ct : Int) (ja : List (List RawRow))
    (h0 : 2 ≤ (ja.getD 0 []).length) (h1 : 6 ≤ (ja.getD 1 []).length) :
    (processAll tls seqs).1 =
      (processAll tls (seqs.filter fun s => decide (2 ≤ s.length))).1 ∧
    (mapToKpiStateOrNull cfg cf ct ja).1 =
      (mapToKpiStateOrNull cfg cf ct (ja.filter fun s => decide (2 ≤ s.length))).1 := by
  refine ⟨processAll_filter seqs tls, ?_⟩
  cases ja with
  | nil => simp [List.getD] at h0
  | cons s0 rest1 =>
    cases rest1 with
    | nil => simp [List.getD] at h1
    | cons s1 rest =>
      have h0' : 2 ≤ s0.length := by simpa [List.getD] using h0
      have h1' : 6 ≤ s1.length := by simpa [List.getD] using h1
      have hs1 : 2 ≤ s1.length := by omega
      have hfil : (s0 :: s1 :: rest).filter (fun s => decide (2 ≤ s.length)) =
          s0 :: s1 :: rest.filter (fun s => decide (2 ≤ s.length)) := by
        simp [h0', hs1]
      have hga : ¬ (((s0 :: s1 :: rest).getD 0 []).length < 2 ∨
          ((s0 :: s1 :: rest).getD 1 []).length < 6) := by
        simp [List.getD]
        omega
      rw [hfil]
      have hgc : ¬ (((s0 :: s1 :: rest.filter (fun s => decide (2 ≤ s.length))).getD 0 []).length < 2 ∨
          ((s0 :: s1 :: rest.filter (fun s => decide (2 ≤ s.length))).getD 1 []).length < 6) := by
        simp [List.getD]
        omega
      rw [mapToKpiStateOrNull_pass cfg cf ct _ hga,
        mapToKpiStateOrNull_pass cfg cf ct _ hgc]
      have hpa : (processAll [] (s0 :: s1 :: rest)).1 =
          (processAll [] (s0 :: s1 :: rest.filter (fun s => decide (2 ≤ s.length)))).1 := by
        have := processAll_filter (s0 :: s1 :: rest) []
        rw [this, hfil]
      rw [hpa]

/-- Witness for C9: a 1-row sequence contributes nothing to the table, and on
a concrete gate-passing input with a trailing 1-row sequence the payload is
unchanged by dropping that sequence. -/
theorem claimC9_witness :
    (processAll [] [[⟨1, none, none⟩]]).1 =
      (processAll [] ([[⟨1, none, none⟩]].filter fun s => decide (2 ≤ s.length))).1 ∧
    (mapToKpiStateOrNull cfgEx 0 1 jaShort).1 =
      (mapToKpiStateOrNull cfgEx 0 1 (jaShort.filter fun s => decide (2 ≤ s.length))).1 :=
  claimC9 [] [[⟨1, none, none⟩]] cfgEx 0 1 jaShort (by decide) (by decide)

/-- C10: when every row of the overall sequence lacks the group property, a
non-null payload has a non-empty series list containing an Overall line of
width 3 with at least 2 points (the whole overall sequence folds into it). -/
theorem claimC10 (cfg : MapperConfig) (cf ct : Int) (ja : List (List RawRow))
    (p : KpiState) (hov : ∀ r ∈ ja.getD 0 [], r.group = none)
    (h : (mapToKpiStateOrNull cfg cf ct ja).1 = some p) :
    p.data ≠ [] ∧
    ∃ t ∈ p.data, t.name = "Overall" ∧ t.width = 3 ∧
      2 ≤ t.x.length ∧ t.x.length = t.y.length := by
  obtain ⟨hg, hdata, hlay⟩ := mapToKpiStateOrNull_some_inv h
  have h0 : 2 ≤ (ja.getD 0 []).length := by omega
  cases ja with
  | nil => simp [List.getD] at h0
  | cons s0 rest =>
    have h0' : 2 ≤ s0.length := by simpa [List.getD] using h0
    have hov' : ∀ r ∈ s0, r.group = none := by
      intro r hr
      exact hov r (by simpa [List.getD] using hr)
    have hkept : keptRows (s0 :: rest) = s0 ++ keptRows rest := by
      rw [keptRows_cons, if_neg (by omega)]
    obtain ⟨r0, hr0⟩ : ∃ r0, r0 ∈ s0 := by
      cases s0 with
      | nil => simp at h0'
      | cons a l => exact ⟨a, List.mem_cons_self a l⟩
    have hmem : "Overall" ∈ (keptRows (s0 :: rest)).map resolvedName := by
      rw [hkept]
      refine List.mem_map.mpr ⟨r0, List.mem_append_left _ hr0, ?_⟩
      simp [resolvedName, hov' r0 hr0]
    have ht0 : ("Overall",
        GetTraceLineData "Overall" (routedDates "Overall" (keptRows (s0 :: rest)))
          (routedAvgs "Overall" (keptRows (s0 :: rest))) (widthOf "Overall")) ∈
        (processAll [] (s0 :: rest)).1 :=
      (mem_finalTable _ _ _).mpr ⟨hmem, rfl⟩
    have htd : GetTraceLineData "Overall" (routedDates "Overall" (keptRows (s0 :: rest)))
        (routedAvgs "Overall" (keptRows (s0 :: rest))) (widthOf "Overall") ∈ p.data := by
      rw [hdata]
      exact (mem_data_iff _ _).mpr ⟨"Overall", ht0⟩
    have hfil : routedDates "Overall" s0 = s0.map RawRow.DATE := by
      unfold routedDates
      rw [List.filter_eq_self.mpr fun r hr => by simp [resolvedName, hov' r hr]]
    constructor
    · intro hnil
      rw [hnil] at htd
      simp at htd
    · refine ⟨_, htd, rfl, rfl, ?_, ?_⟩
      · show 2 ≤ (routedDates "Overall" (keptRows (s0 :: rest))).length
        rw [hkept, routedDates_append, hfil]
        simp only [List.length_append, List.length_map]
        omega
      · simp [GetTraceLineData, routedDates, routedAvgs]

/-- Witness for C10: on a concrete input whose overall rows lack the group
property, the payload is non-empty and carries the width-3 Overall line with
at least two points. -/
theorem claimC10_witness :
    pAlpha.data ≠ [] ∧
    ∃ t ∈ pAlpha.data, t.name = "Overall" ∧ t.width = 3 ∧
      2 ≤ t.x.length ∧ t.x.length = t.y.length :=
  claimC10 cfgEx 0 1 jaAlpha pAlpha (by decide) (by decide)

end KpiMappers
